import Mathlib

/-!
Verification development for the voxel-runner simulation core
(src/services/voxelEngine.ts).

Modelling conventions:
* JS numbers are modelled by exact rationals (all arithmetic in the core
  is +, -, *, Math.floor, Math.min/max and comparisons).
* The sparse block map (a JS Map from the string key "x,y,z" to a mesh) is
  modelled semantically as a function from integer coordinates to an
  optional block type; the key encoding is injective on integers, so the
  function view is faithful.
* Math.random, Math.sin and Math.cos are ambient effects of the runtime;
  they are modelled by an explicit environment (a random stream accessed
  by a running index, plus two function parameters for sin and cos).
* Host callbacks (onDeath) are modelled by a counter in the engine state.
* Rendering, camera, audio and the three.js scene graph are presentation
  state and are outside the model, exactly as in the specification.
-/

namespace Voxel

/-- Block material tags, from the materials table of the engine. -/
inductive BlockType
  | grass
  | dirt
  | stone
  | fragile
  deriving DecidableEq, Repr

/-- Integer block coordinate (world-aligned unit cubes). -/
abbrev Coord := ℤ × ℤ × ℤ

/-- The sparse voxel grid: semantic view of the `blocks` Map. -/
def Grid := Coord → Option BlockType

/-- 3D vector of exact rationals (models THREE.Vector3). -/
structure Vec3 where
  x : ℚ
  y : ℚ
  z : ℚ
  deriving DecidableEq, Repr

/-- Player state: position, velocity, ground and double-jump flags. -/
structure Player where
  pos : Vec3
  vel : Vec3
  onGround : Bool
  canDoubleJump : Bool
  deriving DecidableEq, Repr

/-- A transient particle: position, velocity, remaining life, color. -/
structure Particle where
  pos : Vec3
  vel : Vec3
  life : ℚ
  color : ℕ
  deriving DecidableEq, Repr

/-- Score and elapsed time. -/
structure GameStats where
  score : ℚ
  time : ℚ
  deriving DecidableEq, Repr

/-- Input intents: forward/back axis f, lateral axis r, sprint. -/
structure InputState where
  f : ℤ
  r : ℤ
  sprint : Bool
  deriving DecidableEq, Repr

/-- Ambient runtime environment: the unseeded Math.random stream (read at
a running index) and the Math.sin / Math.cos functions of the runtime. -/
structure Ext where
  rand : ℕ → ℚ
  sinF : ℚ → ℚ
  cosF : ℚ → ℚ

/-- The whole mutable engine state touched by the simulation core. -/
structure Engine where
  blocks : Grid
  gens : ℤ → Bool
  particles : List Particle
  stats : GameStats
  player : Player
  input : InputState
  active : Bool
  deaths : ℕ
  rngIdx : ℕ

-- Configuration constants of the engine.

def CHUNK_SIZE : ℤ := 16
def VIEW_DISTANCE : ℤ := 4
def GRAVITY : ℚ := 40
def JUMP_FORCE : ℚ := 16
def MOVE_SPEED : ℚ := 12
def SPRINT_SPEED : ℚ := 20
def DRAG : ℚ := 8

/-- Existence test on the grid (`blocks.has(key)`). -/
def hasBlock (g : Grid) (c : Coord) : Bool :=
  (g c).isSome

/-- `createBlock`: insert a block only if the coordinate is unoccupied
(the source returns early when `blocks.has(key)`). -/
def createBlock (g : Grid) (x y z : ℤ) (t : BlockType) : Grid :=
  if (g (x, y, z)).isSome then g
  else fun c => if c = (x, y, z) then some t else g c

/-- Removal of a block from the grid (`blocks.delete(key)`, as performed
by `destroyBlock` on a raycast hit). -/
def removeBlock (g : Grid) (c0 : Coord) : Grid :=
  fun c => if c = c0 then none else g c

/-- Integer range [a, b] as a list, in increasing order (models the JS
loops `for (i = a; i <= b; i++)`). -/
def intRange (a b : ℤ) : List ℤ :=
  (List.range (b + 1 - a).toNat).map (fun (i : ℕ) => a + (i : ℤ))

/-- All (x, y) cell pairs scanned by `checkCollision`: outer loop over
columns, inner loop over rows. -/
def prodList (xs ys : List ℤ) : List (ℤ × ℤ) :=
  xs.foldr (fun x acc => (ys.map (fun y => (x, y))) ++ acc) []

/-- Terrain height of a world column: height as computed by
`generateChunk`, using the runtime sin and cos, floor-clamped at -2. -/
def heightAt (E : Ext) (wx : ℤ) : ℤ :=
  let h := ⌊E.sinF ((wx : ℚ) * 0.1) * 2⌋ + ⌊E.cosF ((wx : ℚ) * 0.5) * 1⌋
  if h < -2 then -2 else h

/-- Ground fill of one column: blocks from y = -4 up to the height, the
top one grass, the rest dirt. -/
def groundCol (wx h : ℤ) (g : Grid) : Grid :=
  (intRange (-4) h).foldl
    (fun g' y => createBlock g' wx y 0 (if y = h then BlockType.grass else BlockType.dirt)) g

/-- The random-obstacle part of one generated column: the fragile
floating block 1-3 units above the surface with an optional second
stacked fragile block (only when the local column index exceeds 2; one
Math.random draw happens in the guard regardless), then the 2-wide stone
platform 4 units above the surface. The second component threads the
Math.random stream index. -/
def obstaclesCol (E : Ext) (lx : ℕ) (wx h : ℤ) (gi : Grid × ℕ) : Grid × ℕ :=
  let r1 := E.rand gi.2
  let gi2 : Grid × ℕ :=
    if r1 > 0.7 ∧ lx > 2 then
      let hh := h + 1 + ⌊E.rand (gi.2 + 1) * 3⌋
      let ga := createBlock gi.1 wx hh 0 BlockType.fragile
      let gb := if E.rand (gi.2 + 2) > 0.5 then createBlock ga wx (hh + 1) 0 BlockType.fragile
                else ga
      (gb, gi.2 + 3)
    else (gi.1, gi.2 + 1)
  if E.rand gi2.2 > 0.85 then
    (createBlock (createBlock gi2.1 wx (h + 4) 0 BlockType.stone) (wx + 1) (h + 4) 0 BlockType.stone,
     gi2.2 + 1)
  else (gi2.1, gi2.2 + 1)

/-- One column of `generateChunk`: deterministic ground fill from y = -4
up to the terrain height, then the random obstacles. -/
def genColumn (E : Ext) (cx : ℤ) (lx : ℕ) (gi : Grid × ℕ) : Grid × ℕ :=
  let wx := cx * CHUNK_SIZE + (lx : ℤ)
  let h := heightAt E wx
  obstaclesCol E lx wx h (groundCol wx h gi.1, gi.2)

/-- `generateChunk(cx)`: generate all CHUNK_SIZE columns of a chunk. -/
def generateChunk (E : Ext) (cx : ℤ) (gi : Grid × ℕ) : Grid × ℕ :=
  (List.range 16).foldl (fun acc lx => genColumn E cx lx acc) gi

/-- One guarded step of the streaming-window pass: generate chunk cx
and mark it, unless it is already marked generated. -/
def genStep (E : Ext) (acc : Grid × (ℤ → Bool) × ℕ) (cx : ℤ) : Grid × (ℤ → Bool) × ℕ :=
  if acc.2.1 cx then acc
  else
    let gi := generateChunk E cx (acc.1, acc.2.2)
    (gi.1, fun c => if c = cx then true else acc.2.1 c, gi.2)

/-- The streaming-window pass of `updateChunks`: for i in [-1, VIEW_DISTANCE],
generate chunk playerChunkX + i unless already marked generated.
State threaded: (blocks, generated ledger, random index). -/
def genWindow (E : Ext) (pcx : ℤ) (t : Grid × (ℤ → Bool) × ℕ) : Grid × (ℤ → Bool) × ℕ :=
  (intRange (-1) VIEW_DISTANCE).foldl (fun acc i => genStep E acc (pcx + i)) t

/-- Unguarded generation over an explicit list of chunk indices (the
reference point for "generates exactly the not-yet-generated indices"). -/
def genAll (E : Ext) (l : List ℤ) (gi : Grid × ℕ) : Grid × ℕ :=
  l.foldl (fun acc cx => generateChunk E cx acc) gi

/-- The chunk indices of the streaming window around a player chunk. -/
def chunkWindow (pcx : ℤ) : List ℤ :=
  intRange (pcx - 1) (pcx + VIEW_DISTANCE)

/-- `updateChunks`: ensure the streaming window around the player's chunk
index is generated. -/
def updateChunks (E : Ext) (st : Engine) : Engine :=
  let pcx := ⌊st.player.pos.x / (CHUNK_SIZE : ℚ)⌋
  let t := genWindow E pcx (st.blocks, st.gens, st.rngIdx)
  { st with blocks := t.1, gens := t.2.1, rngIdx := t.2.2 }

/-- One spawned particle: velocity randomized from three consecutive
Math.random draws, life 1.0, at the given position. -/
def spawnOne (E : Ext) (i : ℕ) (p : Vec3) (color : ℕ) : Particle :=
  { pos := p
    vel := { x := (E.rand i - 0.5) * 5
             y := (E.rand (i + 1) - 0.5) * 5 + 2
             z := (E.rand (i + 2) - 0.5) * 5 }
    life := 1
    color := color }

/-- `spawnParticles(pos, count, color)`: push `count` fresh particles. -/
def spawnParticles (E : Ext) (p : Vec3) (count : ℕ) (color : ℕ) (st : Engine) : Engine :=
  { st with
      particles := st.particles ++ (List.range count).map
        (fun k => spawnOne E (st.rngIdx + 3 * k) p color)
      rngIdx := st.rngIdx + 3 * count }

/-- `handleJump`: ignored while inactive; grounded jump at full force,
airborne double jump at 0.8 force with a 5-particle white puff. -/
def handleJump (E : Ext) (st : Engine) : Engine :=
  if st.active = true then
    if st.player.onGround then
      { st with player := { st.player with
          vel := { st.player.vel with y := JUMP_FORCE }
          onGround := false
          canDoubleJump := true } }
    else if st.player.canDoubleJump then
      spawnParticles E st.player.pos 5 0xffffff
        { st with player := { st.player with
            vel := { st.player.vel with y := JUMP_FORCE * 0.8 }
            canDoubleJump := false } }
    else st
  else st

/-- Collision axis selector. -/
inductive Axis
  | ax
  | ay
  deriving DecidableEq

/-- Correction applied by `checkCollision` for one occupied cell. On the
X axis: push out to the near face against the velocity sign and zero the
X velocity. On the Y axis: moving up, push below the block; otherwise
push onto the block top, zero the Y velocity, and set onGround. -/
def collideCell (a : Axis) (c : ℤ × ℤ) (q : Player) : Player :=
  match a with
  | Axis.ax =>
      if q.vel.x > 0 then
        { q with pos := { q.pos with x := (c.1 : ℚ) - 0.35 - 0.5 }
                 vel := { q.vel with x := 0 } }
      else
        { q with pos := { q.pos with x := (c.1 : ℚ) + 0.5 + 0.35 }
                 vel := { q.vel with x := 0 } }
  | Axis.ay =>
      if q.vel.y > 0 then
        { q with pos := { q.pos with y := (c.2 : ℚ) - 0.4 - 0.5 }
                 vel := { q.vel with y := 0 } }
      else
        { q with pos := { q.pos with y := (c.2 : ℚ) + 0.5 + 0.4 }
                 vel := { q.vel with y := 0 }
                 onGround := true }

/-- The cell ranges scanned by `checkCollision`, computed once from the
player's AABB on entry (half extents 0.35 horizontally, 0.4 vertically;
z fixed at the single populated layer 0). -/
def cellList (q : Player) : List (ℤ × ℤ) :=
  prodList (intRange ⌊q.pos.x - 0.35⌋ ⌊q.pos.x + 0.35⌋)
           (intRange ⌊q.pos.y - 0.4⌋ ⌊q.pos.y + 0.4⌋)

/-- `checkCollision(axis)`: iterate the scanned cells in order and apply
the per-cell correction to every occupied one (last write wins). -/
def checkCollision (g : Grid) (a : Axis) (q : Player) : Player :=
  (cellList q).foldl
    (fun p c => if hasBlock g (c.1, c.2, 0) then collideCell a c p else p) q

/-- The kinematics and collision part of `updatePhysics`: lateral
acceleration or drag, clamp, gravity, X move + X correction, then Y move
+ Y correction. Reads only the lateral intent and the sprint flag. -/
def physPlayer (g : Grid) (r : ℤ) (sprint : Bool) (dt : ℚ) (q : Player) : Player :=
  let speed := if sprint then SPRINT_SPEED else MOVE_SPEED
  let vx0 := if r ≠ 0 then q.vel.x + (r : ℚ) * speed * dt * 5
             else q.vel.x - q.vel.x * DRAG * dt
  let vx := max (min vx0 speed) (-speed)
  let vy := q.vel.y - GRAVITY * dt
  let q1 : Player :=
    { q with vel := { q.vel with x := vx, y := vy }
             pos := { q.pos with x := q.pos.x + vx * dt } }
  let q2 := checkCollision g Axis.ax q1
  let q3 : Player := { q2 with pos := { q2.pos with y := q2.pos.y + q2.vel.y * dt } }
  checkCollision g Axis.ay q3

/-- `updatePhysics(dt)`: run kinematics and collision, then the
fall-death check: if the corrected y is below -10, clear the active flag
and signal the death callback (counted in `deaths`). -/
def updatePhysics (dt : ℚ) (st : Engine) : Engine :=
  let pl := physPlayer st.blocks st.input.r st.input.sprint dt st.player
  if pl.pos.y < -10 then
    { st with player := pl, active := false, deaths := st.deaths + 1 }
  else
    { st with player := pl }

/-- One particle aging step of the frame loop: life decays by 2*dt,
half-strength gravity on the velocity, then position integration with
the updated velocity. -/
def tickOne (dt : ℚ) (p : Particle) : Particle :=
  let life' := p.life - dt * 2
  let vel' : Vec3 := { p.vel with y := p.vel.y - GRAVITY * dt * 0.5 }
  { p with
      life := life'
      vel := vel'
      pos := { x := p.pos.x + vel'.x * dt
               y := p.pos.y + vel'.y * dt
               z := p.pos.z + vel'.z * dt } }

/-- Particle pass of the frame loop: age every particle and drop the
ones whose life fell to 0 or below. -/
def tickParticles (dt : ℚ) (ps : List Particle) : List Particle :=
  (ps.map (tickOne dt)).filter (fun p => !(decide (p.life ≤ 0)))

/-- One animation frame (with dt already clamped by the loop): if the
session is inactive nothing but rendering happens; otherwise physics,
particle aging, chunk streaming and stats accumulation run in order. -/
def stepFrame (E : Ext) (dt : ℚ) (st : Engine) : Engine :=
  if st.active = true then
    let st1 := updatePhysics dt st
    let st2 := { st1 with particles := tickParticles dt st1.particles }
    let st3 := updateChunks E st2
    { st3 with stats := { score := st3.stats.score + dt * 10, time := st3.stats.time + dt } }
  else st

/-- `lock()`: begin or resume an active session. -/
def lock (st : Engine) : Engine :=
  { st with active := true }

-- Teardown model: the DOM listeners and the animation-frame timer the
-- engine registers, and what `dispose` actually deregisters.

/-- The DOM events the engine subscribes to on the window. -/
inductive DomEvent
  | keydown
  | keyup
  | mousedown
  | mousemove
  | resize
  deriving DecidableEq, Repr

/-- Registration state of listeners and the animation-frame timer. -/
structure Handles where
  listeners : List DomEvent
  animFrame : Bool
  deriving DecidableEq, Repr

/-- After `init` and `setupInputs`: keydown, keyup, mousedown, mousemove
and resize listeners are registered and the frame loop is scheduled. -/
def initHandles : Handles :=
  { listeners := [DomEvent.keydown, DomEvent.keyup, DomEvent.mousedown,
                  DomEvent.mousemove, DomEvent.resize]
    animFrame := true }

/-- `dispose()`: cancels the animation frame and removes only the resize
listener (plus renderer teardown, outside the model). -/
def dispose (h : Handles) : Handles :=
  { listeners := h.listeners.filter (fun e => !(decide (e = DomEvent.resize)))
    animFrame := false }

-- Concrete states and environments used by witnesses.

/-- A fixed runtime environment: the random stream is constantly 0 and
the trig functions are constantly 0. -/
def extZero : Ext := ⟨fun _ => 0, fun _ => 0, fun _ => 0⟩

/-- The empty grid. -/
def emptyGrid : Grid := fun _ => none

/-- An active, grounded player state over the empty grid. -/
def groundSt : Engine :=
  { blocks := emptyGrid, gens := fun _ => false, particles := [],
    stats := ⟨0, 0⟩, player := ⟨⟨0, 0.9, 0⟩, ⟨0, 0, 0⟩, true, false⟩,
    input := ⟨0, 0, false⟩, active := true, deaths := 0, rngIdx := 0 }

/-- An active state whose physics step carries the player below y = -10
over the empty grid. -/
def dieSt : Engine :=
  { blocks := emptyGrid, gens := fun _ => false, particles := [],
    stats := ⟨0, 0⟩, player := ⟨⟨0, -15, 0⟩, ⟨0, 0, 0⟩, false, false⟩,
    input := ⟨0, 0, false⟩, active := true, deaths := 0, rngIdx := 0 }

/-- The flat single-layer floor world: a block at every (x, 0, 0). -/
def floorGrid : Grid :=
  fun c => if c.2.1 = 0 ∧ c.2.2 = 0 then some BlockType.grass else none

/-- The C2 scenario start state: player at y = 5 over the flat floor,
zero velocity, zero lateral intent, no sprint, active session. -/
def c2Start : Engine :=
  { blocks := floorGrid, gens := fun _ => false, particles := [],
    stats := ⟨0, 0⟩, player := ⟨⟨0, 5, 0⟩, ⟨0, 0, 0⟩, false, false⟩,
    input := ⟨0, 0, false⟩, active := true, deaths := 0, rngIdx := 0 }

/-- Closed form: the falling player's height after n uncollided steps of
fixed dt (gravity 40, start 5, start velocity 0). -/
def yA (dt : ℚ) (n : ℕ) : ℚ := 5 - 20 * dt ^ 2 * n * (n + 1)

/-- Closed form: the falling player's vertical velocity after n steps. -/
def vA (dt : ℚ) (n : ℕ) : ℚ := -(40 * dt * n)

/-- A single particle with full life. -/
def particleOne : Particle :=
  { pos := ⟨0, 0, 0⟩, vel := ⟨0, 0, 0⟩, life := 1, color := 0xffffff }

/-- C4: for every coordinate, inserting a block then testing existence
returns true; removing then testing existence returns false; inserting
at an occupied coordinate leaves the grid entry unchanged (insert only
if absent, hence idempotent). -/
theorem c4_grid_contract (g : Grid) (x y z : ℤ) (t : BlockType) :
    hasBlock (createBlock g x y z t) (x, y, z) = true ∧
    hasBlock (removeBlock g (x, y, z)) (x, y, z) = false ∧
    (hasBlock g (x, y, z) = true → createBlock g x y z t = g) := by
  refine ⟨?_, ?_, ?_⟩
  · unfold createBlock hasBlock
    by_cases h : (g (x, y, z)).isSome
    · simp [h]
    · simp [h]
  · simp [removeBlock, hasBlock]
  · intro h
    unfold createBlock
    simp only [hasBlock] at h
    simp [h]

/-- Witness for C4 at a concrete grid: the occupied-coordinate insert is
exercised on a grid holding grass at the origin. -/
theorem c4_grid_contract_witness :
    hasBlock (createBlock emptyGrid 0 0 0 BlockType.grass) (0, 0, 0) = true ∧
    createBlock (createBlock emptyGrid 0 0 0 BlockType.grass) 0 0 0 BlockType.dirt
      = createBlock emptyGrid 0 0 0 BlockType.grass :=
  ⟨by decide,
   (c4_grid_contract (createBlock emptyGrid 0 0 0 BlockType.grass) 0 0 0 BlockType.dirt).2.2
     (by decide)⟩

/-- C7 counterexample: a particle with life 1.0 ticked once with dt = 0.6
is already removed from the live set (life 1 - 2*0.6 = -0.2 ≤ 0), so the
claim that it is removed only after the second tick is false. -/
theorem c7_removed_after_first_tick : tickParticles 0.6 [particleOne] = [] := by
  norm_num [tickParticles, tickOne, particleOne, List.filter_cons, List.filter_nil]

/-- C7 amended: with dt = 0.6 each tick decreases life by 2*dt = 1.2, so
the particle with life 1.0 has life -0.2 ≤ 0 after the FIRST tick and is
removed then; the live set is (still) empty after the second tick. -/
theorem c7_particle_lifecycle :
    (tickOne 0.6 particleOne).life = -(1/5) ∧
    (tickOne 0.6 particleOne).life ≤ 0 ∧
    tickParticles 0.6 (tickParticles 0.6 [particleOne]) = [] := by
  refine ⟨by norm_num [tickOne, particleOne], by norm_num [tickOne, particleOne], ?_⟩
  norm_num [tickParticles, tickOne, particleOne, List.filter_cons, List.filter_nil]

/-- C8: disposing cancels the animation frame but removes only the
resize listener, leaving the keydown, keyup, mousedown and mousemove
listeners registered, so input-driven mutation can still execute after
disposal. This contradicts the spec requirement that dispose deregister
all listeners. -/
theorem c8_dispose_leaves_input_listeners :
    (dispose initHandles).listeners
      = [DomEvent.keydown, DomEvent.keyup, DomEvent.mousedown, DomEvent.mousemove] ∧
    (dispose initHandles).animFrame = false ∧
    (dispose initHandles).listeners ≠ [] := by
  refine ⟨by decide, by decide, by decide⟩

/-- C3: the jump state machine. Grounded jump: full force, clears
onGround, grants the double jump. Airborne with the double jump
available: 0.8 force, consumes the double jump, spawns 5 white particles
at the player position. Airborne without it: no change. Inactive
session: no change. -/
theorem c3_jump_state_machine (E : Ext) (st : Engine) :
    (st.active = true → st.player.onGround = true →
      handleJump E st = { st with player := { st.player with
        vel := { st.player.vel with y := JUMP_FORCE },
        onGround := false, canDoubleJump := true } }) ∧
    (st.active = true → st.player.onGround = false → st.player.canDoubleJump = true →
      (handleJump E st).player.vel.y = JUMP_FORCE * 0.8 ∧
      (handleJump E st).player.canDoubleJump = false ∧
      (handleJump E st).player.onGround = false ∧
      (handleJump E st).player.pos = st.player.pos ∧
      ∃ l, (handleJump E st).particles = st.particles ++ l ∧ l.length = 5 ∧
        ∀ p ∈ l, p.pos = st.player.pos ∧ p.color = 0xffffff ∧ p.life = 1) ∧
    (st.active = true → st.player.onGround = false → st.player.canDoubleJump = false →
      handleJump E st = st) ∧
    (st.active = false → handleJump E st = st) := by
  refine ⟨?_, ?_, ?_, ?_⟩
  · intro ha hg
    simp [handleJump, ha, hg]
  · intro ha hg hc
    refine ⟨by simp [handleJump, ha, hg, hc, spawnParticles],
            by simp [handleJump, ha, hg, hc, spawnParticles],
            by simp [handleJump, ha, hg, hc, spawnParticles],
            by simp [handleJump, ha, hg, hc, spawnParticles],
            (List.range 5).map (fun k => spawnOne E (st.rngIdx + 3 * k) st.player.pos 0xffffff),
            by simp [handleJump, ha, hg, hc, spawnParticles],
            by simp,
            ?_⟩
    intro p hp
    simp only [List.mem_map] at hp
    obtain ⟨k, -, rfl⟩ := hp
    exact ⟨rfl, rfl, rfl⟩
  · intro ha hg hc
    simp [handleJump, ha, hg, hc]
  · intro ha
    simp [handleJump, ha]

/-- Witness for C3: the grounded-jump case at a concrete active state. -/
theorem c3_jump_state_machine_witness :
    groundSt.active = true ∧ groundSt.player.onGround = true ∧
    handleJump extZero groundSt = { groundSt with player := { groundSt.player with
      vel := { groundSt.player.vel with y := JUMP_FORCE },
      onGround := false, canDoubleJump := true } } :=
  ⟨rfl, rfl, (c3_jump_state_machine extZero groundSt).1 rfl rfl⟩

-- Preservation helpers: nothing in the physics or frame pipeline ever
-- clears the onGround flag.

theorem collideCell_onGround (a : Axis) (c : ℤ × ℤ) (q : Player)
    (h : q.onGround = true) : (collideCell a c q).onGround = true := by
  cases a <;> simp only [collideCell] <;> split <;> simp [h]

theorem foldl_collide_onGround (g : Grid) (a : Axis) (l : List (ℤ × ℤ)) (q : Player)
    (h : q.onGround = true) :
    (l.foldl (fun p c => if hasBlock g (c.1, c.2, 0) then collideCell a c p else p)
      q).onGround = true := by
  induction l generalizing q with
  | nil => exact h
  | cons c t ih =>
      simp only [List.foldl_cons]
      by_cases hb : hasBlock g (c.1, c.2, 0) = true
      · rw [if_pos hb]
        exact ih _ (collideCell_onGround a c q h)
      · rw [if_neg hb]
        exact ih _ h

theorem checkCollision_onGround (g : Grid) (a : Axis) (q : Player)
    (h : q.onGround = true) : (checkCollision g a q).onGround = true :=
  foldl_collide_onGround g a (cellList q) q h

theorem physPlayer_onGround (g : Grid) (r : ℤ) (sprint : Bool) (dt : ℚ) (q : Player)
    (h : q.onGround = true) : (physPlayer g r sprint dt q).onGround = true := by
  unfold physPlayer
  apply checkCollision_onGround
  show (checkCollision g Axis.ax _).onGround = true
  apply checkCollision_onGround
  simpa using h

theorem updatePhysics_onGround (dt : ℚ) (st : Engine)
    (h : st.player.onGround = true) :
    (updatePhysics dt st).player.onGround = true := by
  simp only [updatePhysics]
  split <;> exact physPlayer_onGround _ _ _ _ _ h

theorem updatePhysics_blocks (dt : ℚ) (st : Engine) :
    (updatePhysics dt st).blocks = st.blocks := by
  simp only [updatePhysics]; split <;> rfl

theorem updatePhysics_input (dt : ℚ) (st : Engine) :
    (updatePhysics dt st).input = st.input := by
  simp only [updatePhysics]; split <;> rfl

theorem updatePhysics_player (dt : ℚ) (st : Engine) :
    (updatePhysics dt st).player
      = physPlayer st.blocks st.input.r st.input.sprint dt st.player := by
  simp only [updatePhysics]; split <;> rfl

theorem stepFrame_player (E : Ext) (dt : ℚ) (st : Engine) (h : st.active = true) :
    (stepFrame E dt st).player = (updatePhysics dt st).player := by
  simp [stepFrame, h, updateChunks]

/-- C1: fall-death. In an active frame in which the y position after
both axis corrections is strictly below -10, the step clears the active
flag and fires onDeath exactly once (the death counter advances by one);
an inactive frame changes nothing at all (so physics, particle aging,
chunk generation and stats all stay frozen until lock() reactivates the
session). -/
theorem c1_fall_death (E : Ext) (dt : ℚ) (st : Engine) :
    (st.active = true →
      (physPlayer st.blocks st.input.r st.input.sprint dt st.player).pos.y < -10 →
      (stepFrame E dt st).active = false ∧
      (stepFrame E dt st).deaths = st.deaths + 1) ∧
    (st.active = false → stepFrame E dt st = st) ∧
    (lock st).active = true := by
  refine ⟨?_, ?_, rfl⟩
  · intro ha hy
    constructor
    · simp [stepFrame, ha, updatePhysics, hy, updateChunks]
    · simp [stepFrame, ha, updatePhysics, hy, updateChunks]
  · intro ha
    simp [stepFrame, ha]

/-- Witness for C1 at a concrete dying state. -/
theorem c1_fall_death_witness :
    dieSt.active = true ∧
    (physPlayer dieSt.blocks dieSt.input.r dieSt.input.sprint (1/10) dieSt.player).pos.y < -10 ∧
    (stepFrame extZero (1/10) dieSt).active = false ∧
    (stepFrame extZero (1/10) dieSt).deaths = dieSt.deaths + 1 := by
  have hy : (physPlayer dieSt.blocks dieSt.input.r dieSt.input.sprint
      (1/10) dieSt.player).pos.y < -10 := by
    norm_num [physPlayer, dieSt, emptyGrid, checkCollision, cellList, prodList,
      intRange, hasBlock, MOVE_SPEED, SPRINT_SPEED, GRAVITY, DRAG]
  have h := (c1_fall_death extZero (1/10) dieSt).1 rfl hy
  exact ⟨rfl, hy, h.1, h.2⟩

/-- C9: the onGround flag survives every physics step and every frame
(only a grounded jump clears it), so after walking off a ledge the flag
is still true and a jump trigger in the air is handled as a full-force
grounded jump. -/
theorem c9_onGround_sticky (E : Ext) (dt : ℚ) (st : Engine) :
    (st.player.onGround = true →
      (updatePhysics dt st).player.onGround = true ∧
      (stepFrame E dt st).player.onGround = true) ∧
    (st.active = true → st.player.onGround = true →
      handleJump E st = { st with player := { st.player with
        vel := { st.player.vel with y := JUMP_FORCE },
        onGround := false, canDoubleJump := true } }) := by
  constructor
  · intro h
    refine ⟨updatePhysics_onGround dt st h, ?_⟩
    by_cases ha : st.active = true
    · rw [stepFrame_player E dt st ha]
      exact updatePhysics_onGround dt st h
    · simp only [stepFrame, if_neg ha]
      exact h
  · intro ha hg
    simp [handleJump, ha, hg]

/-- Witness for C9: a grounded player over the empty grid (it has walked
off every block); the frame keeps onGround true and the jump is handled
at full force. -/
theorem c9_onGround_sticky_witness :
    groundSt.player.onGround = true ∧
    (updatePhysics (1/10) groundSt).player.onGround = true ∧
    (stepFrame extZero (1/10) groundSt).player.onGround = true ∧
    handleJump extZero groundSt = { groundSt with player := { groundSt.player with
      vel := { groundSt.player.vel with y := JUMP_FORCE },
      onGround := false, canDoubleJump := true } } :=
  ⟨rfl,
   ((c9_onGround_sticky extZero (1/10) groundSt).1 rfl).1,
   ((c9_onGround_sticky extZero (1/10) groundSt).1 rfl).2,
   (c9_onGround_sticky extZero (1/10) groundSt).2 rfl rfl⟩

/-- C10: the forward/back intent f is captured by the input layer but
never read by the simulation: two physics steps (and two whole frames)
whose inputs differ only in f produce identical simulation state
(player, grid, ledger, particles, stats, active flag, death count,
random index). -/
theorem c10_forward_intent_unread (E : Ext) (dt : ℚ) (st : Engine) (a b : ℤ) :
    (let s1 := updatePhysics dt { st with input := { st.input with f := a } };
     let s2 := updatePhysics dt { st with input := { st.input with f := b } };
     s1.player = s2.player ∧ s1.blocks = s2.blocks ∧ s1.gens = s2.gens ∧
     s1.particles = s2.particles ∧ s1.stats = s2.stats ∧ s1.active = s2.active ∧
     s1.deaths = s2.deaths ∧ s1.rngIdx = s2.rngIdx) ∧
    (let t1 := stepFrame E dt { st with input := { st.input with f := a } };
     let t2 := stepFrame E dt { st with input := { st.input with f := b } };
     t1.player = t2.player ∧ t1.blocks = t2.blocks ∧ t1.gens = t2.gens ∧
     t1.particles = t2.particles ∧ t1.stats = t2.stats ∧ t1.active = t2.active ∧
     t1.deaths = t2.deaths ∧ t1.rngIdx = t2.rngIdx) := by
  cases st with
  | mk bl ge pa sts pl inp act de ri =>
      cases inp with
      | mk f r sp =>
          constructor
          · simp only [updatePhysics]
            split_ifs <;> simp_all
          · simp only [stepFrame, updatePhysics, updateChunks]
            split_ifs <;> simp_all

-- Integer-range list facts shared by the chunk and collision proofs.

theorem intRange_mem {a b c : ℤ} : c ∈ intRange a b ↔ a ≤ c ∧ c ≤ b := by
  simp only [intRange, List.mem_map, List.mem_range]
  constructor
  · rintro ⟨i, hi, rfl⟩
    omega
  · rintro ⟨h1, h2⟩
    exact ⟨(c - a).toNat, by omega, by omega⟩

theorem intRange_nonempty {a b : ℤ} (h : a ≤ b) : a ∈ intRange a b :=
  intRange_mem.mpr ⟨le_refl a, h⟩

theorem intRange_nodup (a b : ℤ) : (intRange a b).Nodup := by
  refine List.Nodup.map ?_ (List.nodup_range _)
  intro i j h
  have h' : a + (i : ℤ) = a + (j : ℤ) := h
  omega

-- The guarded streaming fold, characterized: it marks exactly the
-- listed indices and generates exactly the not-yet-marked ones.

theorem genFold_spec (E : Ext) (m : List ℤ) :
    ∀ (b : Grid) (s : ℤ → Bool) (i : ℕ), m.Nodup →
    (m.foldl (genStep E) (b, s, i)).1
        = (genAll E (m.filter (fun c => !(s c))) (b, i)).1 ∧
    (m.foldl (genStep E) (b, s, i)).2.1 = (fun c => s c || decide (c ∈ m)) ∧
    (m.foldl (genStep E) (b, s, i)).2.2
        = (genAll E (m.filter (fun c => !(s c))) (b, i)).2 := by
  induction m with
  | nil =>
      intro b s i _
      refine ⟨rfl, ?_, rfl⟩
      funext c
      simp
  | cons c0 m ih =>
      intro b s i hnd
      have hc0 : c0 ∉ m := (List.nodup_cons.mp hnd).1
      have hm : m.Nodup := (List.nodup_cons.mp hnd).2
      by_cases hs : s c0 = true
      · have hstep : genStep E (b, s, i) c0 = (b, s, i) := by
          simp [genStep, hs]
        have hfil : (c0 :: m).filter (fun c => !(s c)) = m.filter (fun c => !(s c)) := by
          simp [List.filter_cons, hs]
        obtain ⟨h1, h2, h3⟩ := ih b s i hm
        rw [List.foldl_cons, hstep, hfil]
        refine ⟨h1, ?_, h3⟩
        rw [h2]
        funext c
        by_cases hcc : c = c0
        · subst hcc; simp [hs]
        · simp [List.mem_cons, hcc]
      · have hsf : s c0 = false := by simpa using hs
        have hstep : genStep E (b, s, i) c0
            = ((generateChunk E c0 (b, i)).1,
               (fun c => if c = c0 then true else s c),
               (generateChunk E c0 (b, i)).2) := by
          simp [genStep, hsf]
        obtain ⟨h1, h2, h3⟩ := ih (generateChunk E c0 (b, i)).1
          (fun c => if c = c0 then true else s c) (generateChunk E c0 (b, i)).2 hm
        have hfil : m.filter (fun c => !((if c = c0 then (true : Bool) else s c)))
            = m.filter (fun c => !(s c)) := by
          apply List.filter_congr
          intro x hx
          have hxc : ¬ (x = c0) := fun h => hc0 (h ▸ hx)
          simp [hxc]
        have hfil2 : (c0 :: m).filter (fun c => !(s c)) = c0 :: m.filter (fun c => !(s c)) := by
          simp [List.filter_cons, hsf]
        have hall : genAll E (c0 :: m.filter (fun c => !(s c))) (b, i)
            = genAll E (m.filter (fun c => !(s c)))
                ((generateChunk E c0 (b, i)).1, (generateChunk E c0 (b, i)).2) := by
          simp [genAll, List.foldl_cons]
        rw [List.foldl_cons, hstep, hfil2, hall]
        refine ⟨by rw [h1, hfil], ?_, by rw [h3, hfil]⟩
        rw [h2]
        funext c
        by_cases hcc : c = c0
        · subst hcc; simp
        · simp [List.mem_cons, hcc]

/-- If every index of the list is already marked, the guarded fold is the
identity. -/
theorem genFold_skip (E : Ext) (m : List ℤ) :
    ∀ (t : Grid × (ℤ → Bool) × ℕ), (∀ c ∈ m, t.2.1 c = true) →
    m.foldl (genStep E) t = t := by
  induction m with
  | nil => intro t _; rfl
  | cons c0 m ih =>
      intro t hall
      rw [List.foldl_cons]
      have hstep : genStep E t c0 = t := by
        simp [genStep, hall c0 (List.mem_cons_self c0 m)]
      rw [hstep]
      exact ih t (fun c hc => hall c (List.mem_cons_of_mem c0 hc))

/-- The window list really is the interval shifted by the player chunk. -/
theorem window_map (pcx : ℤ) :
    (intRange (-1) VIEW_DISTANCE).map (fun j => pcx + j) = chunkWindow pcx := by
  have h6 : ((pcx + VIEW_DISTANCE) + 1 - (pcx - 1)) = VIEW_DISTANCE + 1 - (-1) := by
    ring
  unfold chunkWindow intRange
  rw [h6, List.map_map]
  apply List.map_congr_left
  intro i _
  simp only [Function.comp_apply]
  ring

/-- genWindow is the guarded fold over the window list. -/
theorem genWindow_eq_fold (E : Ext) (pcx : ℤ) (t : Grid × (ℤ → Bool) × ℕ) :
    genWindow E pcx t = (chunkWindow pcx).foldl (genStep E) t := by
  rw [genWindow, ← window_map pcx, List.foldl_map]

/-- C5: the streaming-window pass generates exactly the not-yet-generated
chunk indices in [pcx - 1, pcx + VIEW_DISTANCE] (in order) and marks
exactly the window as generated; running it again with the same player
chunk index changes nothing (no chunk generated, no block added, no
random draw consumed). -/
theorem c5_ensure_window (E : Ext) (pcx : ℤ) (b : Grid) (s : ℤ → Bool) (i : ℕ) :
    (genWindow E pcx (b, s, i)).1
      = (genAll E ((chunkWindow pcx).filter (fun c => !(s c))) (b, i)).1 ∧
    (genWindow E pcx (b, s, i)).2.1
      = (fun c => s c || decide (pcx - 1 ≤ c ∧ c ≤ pcx + VIEW_DISTANCE)) ∧
    (genWindow E pcx (b, s, i)).2.2
      = (genAll E ((chunkWindow pcx).filter (fun c => !(s c))) (b, i)).2 ∧
    genWindow E pcx (genWindow E pcx (b, s, i)) = genWindow E pcx (b, s, i) := by
  obtain ⟨h1, h2, h3⟩ := genFold_spec E (chunkWindow pcx) b s i
    (intRange_nodup (pcx - 1) (pcx + VIEW_DISTANCE))
  have hmem : (fun c => s c || decide (c ∈ chunkWindow pcx))
      = (fun c => s c || decide (pcx - 1 ≤ c ∧ c ≤ pcx + VIEW_DISTANCE)) := by
    funext c
    congr 1
    exact decide_eq_decide.mpr intRange_mem
  refine ⟨by rw [genWindow_eq_fold]; exact h1,
          by rw [genWindow_eq_fold, h2, hmem],
          by rw [genWindow_eq_fold]; exact h3, ?_⟩
  have hcov : ∀ c ∈ chunkWindow pcx, (genWindow E pcx (b, s, i)).2.1 c = true := by
    intro c hc
    rw [genWindow_eq_fold, h2]
    simp [hc]
  have := genFold_skip E (chunkWindow pcx) (genWindow E pcx (b, s, i)) hcov
  rw [genWindow_eq_fold E pcx (genWindow E pcx (b, s, i))]
  exact this

-- Pointwise facts about createBlock.

theorem createBlock_pres {g : Grid} {x y z : ℤ} {t u : BlockType} {c : Coord}
    (h : g c = some u) : createBlock g x y z t c = some u := by
  unfold createBlock
  split
  · exact h
  · next hns =>
      by_cases hc : c = (x, y, z)
      · exfalso
        apply hns
        rw [← hc, h]
        rfl
      · simp [hc, h]

theorem createBlock_other {g : Grid} {x y z : ℤ} {t : BlockType} {c : Coord}
    (h : c ≠ (x, y, z)) : createBlock g x y z t c = g c := by
  unfold createBlock
  split
  · rfl
  · simp [h]

theorem createBlock_new {g : Grid} {x y z : ℤ} {t : BlockType}
    (h : g (x, y, z) = none) : createBlock g x y z t (x, y, z) = some t := by
  unfold createBlock
  rw [h]
  simp

theorem heightAt_ge (E : Ext) (wx : ℤ) : -2 ≤ heightAt E wx := by
  simp only [heightAt]
  split <;> omega

-- The ground fill writes exactly the listed cells of its column.

theorem groundFold_correct (wx h : ℤ) (l : List ℤ) :
    ∀ (g : Grid), l.Nodup → (∀ y ∈ l, g (wx, y, 0) = none) →
    (∀ y ∈ l,
      (l.foldl (fun g' y' => createBlock g' wx y' 0
          (if y' = h then BlockType.grass else BlockType.dirt)) g) (wx, y, 0)
        = some (if y = h then BlockType.grass else BlockType.dirt)) ∧
    (∀ c : Coord, (∀ y ∈ l, c ≠ ((wx, y, 0) : Coord)) →
      (l.foldl (fun g' y' => createBlock g' wx y' 0
          (if y' = h then BlockType.grass else BlockType.dirt)) g) c = g c) := by
  induction l with
  | nil =>
      intro g _ _
      exact ⟨by simp, fun c _ => rfl⟩
  | cons y0 l ih =>
      intro g hnd hfree
      have hy0 : y0 ∉ l := (List.nodup_cons.mp hnd).1
      have hl : l.Nodup := (List.nodup_cons.mp hnd).2
      have hfree1 : ∀ y ∈ l,
          createBlock g wx y0 0 (if y0 = h then BlockType.grass else BlockType.dirt)
            (wx, y, 0) = none := by
        intro y hy
        rw [createBlock_other]
        · exact hfree y (List.mem_cons_of_mem _ hy)
        · intro he
          have hyy : y = y0 := congrArg (fun c : Coord => c.2.1) he
          exact hy0 (hyy ▸ hy)
      obtain ⟨hA, hB⟩ := ih
        (createBlock g wx y0 0 (if y0 = h then BlockType.grass else BlockType.dirt)) hl hfree1
      constructor
      · intro y hy
        rw [List.foldl_cons]
        rcases List.mem_cons.mp hy with hy | hy
        · subst hy
          rw [hB (wx, y, 0) ?_]
          · exact createBlock_new (hfree y (List.mem_cons_self y l))
          · intro y' hy' he
            have hyy : y = y' := congrArg (fun c : Coord => c.2.1) he
            exact hy0 (hyy ▸ hy')
        · exact hA y hy
      · intro c hc
        rw [List.foldl_cons, hB c (fun y hy => hc y (List.mem_cons_of_mem _ hy)),
            createBlock_other (hc y0 (List.mem_cons_self y0 l))]

theorem groundCol_mem {wx h : ℤ} {g : Grid}
    (hfree : ∀ y : ℤ, -4 ≤ y → y ≤ h → g (wx, y, 0) = none)
    {y : ℤ} (h1 : -4 ≤ y) (h2 : y ≤ h) :
    groundCol wx h g (wx, y, 0)
      = some (if y = h then BlockType.grass else BlockType.dirt) :=
  (groundFold_correct wx h (intRange (-4) h) g (intRange_nodup _ _)
    (fun y hy => hfree y (intRange_mem.mp hy).1 (intRange_mem.mp hy).2)).1 y
    (intRange_mem.mpr ⟨h1, h2⟩)

theorem groundCol_other {wx h : ℤ} {g : Grid}
    (hfree : ∀ y : ℤ, -4 ≤ y → y ≤ h → g (wx, y, 0) = none)
    {c : Coord} (hc : ∀ y : ℤ, -4 ≤ y → y ≤ h → c ≠ ((wx, y, 0) : Coord)) :
    groundCol wx h g c = g c :=
  (groundFold_correct wx h (intRange (-4) h) g (intRange_nodup _ _)
    (fun y hy => hfree y (intRange_mem.mp hy).1 (intRange_mem.mp hy).2)).2 c
    (fun y hy => hc y (intRange_mem.mp hy).1 (intRange_mem.mp hy).2)

-- The obstacle pass: it preserves existing blocks, touches only the two
-- columns wx and wx+1, and writes nothing at or below row 1 outside its
-- own column (the stone platform sits at h + 4 ≥ 2).

theorem obstaclesCol_pres (E : Ext) (lx : ℕ) (wx h : ℤ) (g : Grid) (i : ℕ)
    {c : Coord} {u : BlockType} (hc : g c = some u) :
    (obstaclesCol E lx wx h (g, i)).1 c = some u := by
  simp only [obstaclesCol]
  split_ifs <;> dsimp only <;> (repeat apply createBlock_pres) <;> exact hc

theorem obstaclesCol_other (E : Ext) (lx : ℕ) (wx h : ℤ) (g : Grid) (i : ℕ)
    {c : Coord} (h1 : c.1 ≠ wx) (h2 : c.1 ≠ wx + 1) :
    (obstaclesCol E lx wx h (g, i)).1 c = g c := by
  have hne : ∀ (y' z' : ℤ), c ≠ ((wx, y', z') : Coord) :=
    fun y' z' he => h1 (by rw [he])
  have hne2 : ∀ (y' z' : ℤ), c ≠ ((wx + 1, y', z') : Coord) :=
    fun y' z' he => h2 (by rw [he])
  simp only [obstaclesCol]
  split_ifs <;> dsimp only <;>
    (repeat rw [createBlock_other (hne2 _ _)]) <;>
    (repeat rw [createBlock_other (hne _ _)])

theorem obstaclesCol_low (E : Ext) (lx : ℕ) (wx h : ℤ) (g : Grid) (i : ℕ)
    (hh : -2 ≤ h) {x y : ℤ} (hy : y ≤ 1) (hx : x ≠ wx) :
    (obstaclesCol E lx wx h (g, i)).1 (x, y, 0) = g (x, y, 0) := by
  have hne : ∀ (y' z' : ℤ), ((x, y, 0) : Coord) ≠ (wx, y', z') :=
    fun y' z' he => hx (congrArg (fun c : Coord => c.1) he)
  have hstone : ((x, y, 0) : Coord) ≠ ((wx + 1, h + 4, 0) : Coord) := by
    intro he
    have hyy : y = h + 4 := congrArg (fun c : Coord => c.2.1) he
    omega
  simp only [obstaclesCol]
  split_ifs <;> dsimp only <;>
    (repeat rw [createBlock_other hstone]) <;>
    (repeat rw [createBlock_other (hne _ _)])

-- One generated column, characterized.

theorem genColumn_spec (E : Ext) (cx : ℤ) (lx : ℕ) (g : Grid) (i : ℕ)
    (hfree : ∀ y : ℤ, -4 ≤ y → y ≤ heightAt E (cx * CHUNK_SIZE + (lx : ℤ)) →
        g (cx * CHUNK_SIZE + (lx : ℤ), y, 0) = none) :
    (∀ y : ℤ, -4 ≤ y → y ≤ heightAt E (cx * CHUNK_SIZE + (lx : ℤ)) →
      (genColumn E cx lx (g, i)).1 (cx * CHUNK_SIZE + (lx : ℤ), y, 0)
        = some (if y = heightAt E (cx * CHUNK_SIZE + (lx : ℤ)) then BlockType.grass
                else BlockType.dirt)) ∧
    (∀ c : Coord, c.1 ≠ cx * CHUNK_SIZE + (lx : ℤ) →
        c.1 ≠ cx * CHUNK_SIZE + (lx : ℤ) + 1 →
      (genColumn E cx lx (g, i)).1 c = g c) ∧
    (∀ x y : ℤ, y ≤ 1 → x ≠ cx * CHUNK_SIZE + (lx : ℤ) →
      (genColumn E cx lx (g, i)).1 (x, y, 0) = g (x, y, 0)) := by
  have hgc : genColumn E cx lx (g, i)
      = obstaclesCol E lx (cx * CHUNK_SIZE + (lx : ℤ))
          (heightAt E (cx * CHUNK_SIZE + (lx : ℤ)))
          (groundCol (cx * CHUNK_SIZE + (lx : ℤ))
            (heightAt E (cx * CHUNK_SIZE + (lx : ℤ))) g, i) := rfl
  refine ⟨?_, ?_, ?_⟩
  · intro y hy1 hy2
    rw [hgc]
    exact obstaclesCol_pres _ _ _ _ _ _ (groundCol_mem hfree hy1 hy2)
  · intro c h1 h2
    rw [hgc, obstaclesCol_other _ _ _ _ _ _ h1 h2]
    exact groundCol_other hfree (fun y' _ _ he => h1 (by rw [he]))
  · intro x y hy hx
    rw [hgc, obstaclesCol_low _ _ _ _ _ _ (heightAt_ge E _) hy hx]
    exact groundCol_other hfree
      (fun y' _ _ he => hx (congrArg (fun c : Coord => c.1) he))

-- The whole chunk, by induction over its columns.

theorem chunkFold_inv (E : Ext) (cx : ℤ) (hb : ∀ w : ℤ, heightAt E w ≤ 1)
    (g : Grid) (i : ℕ) (hg : ∀ x y : ℤ, y ≤ 1 → g (x, y, 0) = none) :
    ∀ k : ℕ,
    (∀ lx : ℕ, lx < k → ∀ y : ℤ, -4 ≤ y →
        y ≤ heightAt E (cx * CHUNK_SIZE + (lx : ℤ)) →
        ((List.range k).foldl (fun acc lx' => genColumn E cx lx' acc) (g, i)).1
            (cx * CHUNK_SIZE + (lx : ℤ), y, 0)
          = some (if y = heightAt E (cx * CHUNK_SIZE + (lx : ℤ)) then BlockType.grass
                  else BlockType.dirt)) ∧
    (∀ x y : ℤ, y ≤ 1 → (∀ m : ℕ, m < k → x ≠ cx * CHUNK_SIZE + (m : ℤ)) →
        ((List.range k).foldl (fun acc lx' => genColumn E cx lx' acc) (g, i)).1
          (x, y, 0) = none) := by
  intro k
  induction k with
  | zero =>
      refine ⟨fun lx hlx => absurd hlx (Nat.not_lt_zero lx), ?_⟩
      intro x y hy _
      simpa using hg x y hy
  | succ k ih =>
      obtain ⟨A, B⟩ := ih
      have hfoldsucc :
          (List.range (k + 1)).foldl (fun acc lx' => genColumn E cx lx' acc) (g, i)
            = genColumn E cx k
                ((List.range k).foldl (fun acc lx' => genColumn E cx lx' acc) (g, i)) := by
        rw [List.range_succ, List.foldl_append, List.foldl_cons, List.foldl_nil]
      have hfreek : ∀ y : ℤ, -4 ≤ y →
          y ≤ heightAt E (cx * CHUNK_SIZE + (k : ℤ)) →
          ((List.range k).foldl (fun acc lx' => genColumn E cx lx' acc) (g, i)).1
            (cx * CHUNK_SIZE + (k : ℤ), y, 0) = none := by
        intro y hy1 hy2
        apply B
        · exact le_trans hy2 (hb _)
        · intro m hm he
          have hkm : (k : ℤ) = (m : ℤ) := by
            have := add_left_cancel he
            exact this
          omega
      obtain ⟨ga, gb, gc⟩ := genColumn_spec E cx k
        ((List.range k).foldl (fun acc lx' => genColumn E cx lx' acc) (g, i)).1
        ((List.range k).foldl (fun acc lx' => genColumn E cx lx' acc) (g, i)).2 hfreek
      constructor
      · intro lx hlx y hy1 hy2
        rw [hfoldsucc]
        rcases Nat.lt_succ_iff_lt_or_eq.mp hlx with hlt | heq
        · have h1 : cx * CHUNK_SIZE + (lx : ℤ) ≠ cx * CHUNK_SIZE + (k : ℤ) := by
            intro he
            have := add_left_cancel he
            omega
          have h2 : cx * CHUNK_SIZE + (lx : ℤ) ≠ cx * CHUNK_SIZE + (k : ℤ) + 1 := by
            intro he
            rw [add_assoc] at he
            have := add_left_cancel he
            omega
          rw [gb (cx * CHUNK_SIZE + (lx : ℤ), y, 0) h1 h2]
          exact A lx hlt y hy1 hy2
        · subst heq
          exact ga y hy1 hy2
      · intro x y hy hx
        rw [hfoldsucc, gc x y hy (hx k (Nat.lt_succ_self k))]
        exact B x y hy (fun m hm => hx m (Nat.lt_succ_of_lt hm))

/-- C6: for every chunk index and local column lx < CHUNK_SIZE, with the
terrain height of world column wx = cx*CHUNK_SIZE + lx computed as
floor(sin(wx*0.1)*2) + floor(cos(wx*0.5)*1) clamped below at -2 (the
definition of heightAt over the runtime's sin and cos), generateChunk on
a grid with rows ≤ 1 empty places a block at every y from -4 up to the
height, grass at the height and dirt below. The hypothesis that all
heights are at most 1 holds for the real sine and cosine (the +2 maximum
needs sin = 1 and cos = 1 exactly, impossible at integer multiples of
0.1 and 0.5 except wx = 0 where the sine term is 0). -/
theorem c6_generate_chunk (E : Ext) (hb : ∀ w : ℤ, heightAt E w ≤ 1)
    (g : Grid) (hg : ∀ x y : ℤ, y ≤ 1 → g (x, y, 0) = none)
    (cx : ℤ) (i : ℕ) (lx : ℕ) (hlx : lx < 16) (y : ℤ)
    (hy1 : -4 ≤ y) (hy2 : y ≤ heightAt E (cx * CHUNK_SIZE + (lx : ℤ))) :
    (generateChunk E cx (g, i)).1 (cx * CHUNK_SIZE + (lx : ℤ), y, 0)
      = some (if y = heightAt E (cx * CHUNK_SIZE + (lx : ℤ)) then BlockType.grass
              else BlockType.dirt) :=
  (chunkFold_inv E cx hb g i hg 16).1 lx hlx y hy1 hy2

/-- Witness for C6 with the constant-zero runtime environment: every
height is 0, and the generated chunk has grass at (0, 0, 0). -/
theorem c6_generate_chunk_witness :
    (∀ w : ℤ, heightAt extZero w ≤ 1) ∧
    (0 : ℤ) ≤ heightAt extZero (0 * CHUNK_SIZE + ((0 : ℕ) : ℤ)) ∧
    (generateChunk extZero 0 (emptyGrid, 0)).1
        (0 * CHUNK_SIZE + ((0 : ℕ) : ℤ), 0, 0)
      = some (if (0 : ℤ) = heightAt extZero (0 * CHUNK_SIZE + ((0 : ℕ) : ℤ))
              then BlockType.grass else BlockType.dirt) := by
  have hb : ∀ w : ℤ, heightAt extZero w ≤ 1 := by
    intro w
    simp [heightAt, extZero]
  refine ⟨hb, by simp [heightAt, extZero], ?_⟩
  exact c6_generate_chunk extZero hb emptyGrid (fun _ _ _ => rfl) 0 0 0
    (by norm_num) 0 (by norm_num) (by simp [heightAt, extZero])

-- Collision facts over the flat floor world.

theorem floorGrid_has_iff {x y z : ℤ} :
    hasBlock floorGrid (x, y, z) = true ↔ (y = 0 ∧ z = 0) := by
  unfold hasBlock floorGrid
  by_cases h : y = 0 ∧ z = 0 <;> simp [h]

theorem prodList_mem {xs ys : List ℤ} {c : ℤ × ℤ} :
    c ∈ prodList xs ys ↔ c.1 ∈ xs ∧ c.2 ∈ ys := by
  obtain ⟨c1, c2⟩ := c
  induction xs with
  | nil => simp [prodList]
  | cons x xs ih =>
      rw [show prodList (x :: xs) ys = (ys.map fun y => (x, y)) ++ prodList xs ys from rfl]
      simp only [List.mem_append, List.mem_map, List.mem_cons]
      constructor
      · rintro (⟨y, hy, he⟩ | hm)
        · injection he with e1 e2
          subst e1; subst e2
          exact ⟨Or.inl rfl, hy⟩
        · exact ⟨Or.inr (ih.mp hm).1, (ih.mp hm).2⟩
      · rintro ⟨h1 | h1, h2⟩
        · subst h1
          exact Or.inl ⟨c2, h2, rfl⟩
        · exact Or.inr (ih.mpr ⟨h1, h2⟩)

theorem cellList_mem {q : Player} {c : ℤ × ℤ} :
    c ∈ cellList q ↔
      (⌊q.pos.x - 0.35⌋ ≤ c.1 ∧ c.1 ≤ ⌊q.pos.x + 0.35⌋) ∧
      (⌊q.pos.y - 0.4⌋ ≤ c.2 ∧ c.2 ≤ ⌊q.pos.y + 0.4⌋) := by
  unfold cellList
  rw [prodList_mem, intRange_mem, intRange_mem]

theorem foldl_collide_nohit (g : Grid) (a : Axis) (l : List (ℤ × ℤ)) :
    ∀ q : Player, (∀ c ∈ l, ¬ (hasBlock g (c.1, c.2, 0) = true)) →
    l.foldl (fun p c => if hasBlock g (c.1, c.2, 0) then collideCell a c p else p) q = q := by
  induction l with
  | nil => intro q _; rfl
  | cons c t ih =>
      intro q h
      rw [List.foldl_cons, if_neg (h c (List.mem_cons_self c t))]
      exact ih q (fun c' hc' => h c' (List.mem_cons_of_mem _ hc'))

theorem collideCell_ax_ypart (c : ℤ × ℤ) (q : Player) :
    (collideCell Axis.ax c q).pos.y = q.pos.y ∧
    (collideCell Axis.ax c q).vel.y = q.vel.y ∧
    (collideCell Axis.ax c q).onGround = q.onGround ∧
    (collideCell Axis.ax c q).canDoubleJump = q.canDoubleJump := by
  simp only [collideCell]
  split <;> exact ⟨rfl, rfl, rfl, rfl⟩

theorem foldl_ax_ypart (g : Grid) (l : List (ℤ × ℤ)) :
    ∀ q : Player,
    ((l.foldl (fun p c => if hasBlock g (c.1, c.2, 0) then collideCell Axis.ax c p else p)
        q).pos.y = q.pos.y ∧
     (l.foldl (fun p c => if hasBlock g (c.1, c.2, 0) then collideCell Axis.ax c p else p)
        q).vel.y = q.vel.y ∧
     (l.foldl (fun p c => if hasBlock g (c.1, c.2, 0) then collideCell Axis.ax c p else p)
        q).onGround = q.onGround ∧
     (l.foldl (fun p c => if hasBlock g (c.1, c.2, 0) then collideCell Axis.ax c p else p)
        q).canDoubleJump = q.canDoubleJump) := by
  induction l with
  | nil => intro q; exact ⟨rfl, rfl, rfl, rfl⟩
  | cons c t ih =>
      intro q
      rw [List.foldl_cons]
      by_cases hb : hasBlock g (c.1, c.2, 0) = true
      · rw [if_pos hb]
        obtain ⟨e1, e2, e3, e4⟩ := ih (collideCell Axis.ax c q)
        obtain ⟨f1, f2, f3, f4⟩ := collideCell_ax_ypart c q
        exact ⟨e1.trans f1, e2.trans f2, e3.trans f3, e4.trans f4⟩
      · rw [if_neg hb]
        exact ih q

theorem checkCollision_ax_ypart (g : Grid) (q : Player) :
    (checkCollision g Axis.ax q).pos.y = q.pos.y ∧
    (checkCollision g Axis.ax q).vel.y = q.vel.y ∧
    (checkCollision g Axis.ax q).onGround = q.onGround ∧
    (checkCollision g Axis.ax q).canDoubleJump = q.canDoubleJump :=
  foldl_ax_ypart g (cellList q) q

/-- Above the floor band (pos.y at least 1.4) the scanned rows are all
at least 1, so no floor cell is hit on either axis. -/
theorem checkCollision_above (a : Axis) (q : Player) (hy : (1.4 : ℚ) ≤ q.pos.y) :
    checkCollision floorGrid a q = q := by
  unfold checkCollision
  apply foldl_collide_nohit
  intro c hc hb
  have h2 := (cellList_mem.mp hc).2.1
  have hfl : (1 : ℤ) ≤ ⌊q.pos.y - 0.4⌋ := by
    rw [Int.le_floor]
    push_cast
    linarith
  have hc2 : c.2 ≠ 0 := by omega
  exact hc2 (floorGrid_has_iff.mp hb).1

/-- A player already resting on the floor top (y = 0.9, vy = 0, grounded)
is a fixed point of the y-axis correction fold over floor cells. -/
theorem yfold_fix (l : List (ℤ × ℤ)) :
    ∀ q : Player, q.pos.y = 0.9 → q.vel.y = 0 → q.onGround = true →
    l.foldl (fun p c => if hasBlock floorGrid (c.1, c.2, 0) then collideCell Axis.ay c p else p)
      q = q := by
  induction l with
  | nil => intro q _ _ _; rfl
  | cons c t ih =>
      intro q h1 h2 h3
      rw [List.foldl_cons]
      by_cases hb : hasBlock floorGrid (c.1, c.2, 0) = true
      · have hc2 : c.2 = 0 := (floorGrid_has_iff.mp hb).1
        have hstep : collideCell Axis.ay c q = q := by
          obtain ⟨⟨px, py, pz⟩, ⟨vx, vy, vz⟩, og, cj⟩ := q
          simp only at h1 h2 h3
          subst h2; subst h3
          simp only [collideCell, hc2]
          rw [if_neg (lt_irrefl 0)]
          have h9 : ((0 : ℤ) : ℚ) + 0.5 + 0.4 = py := by rw [h1]; norm_num
          rw [h9]
        rw [if_pos hb, hstep]
        exact ih q h1 h2 h3
      · rw [if_neg hb]
        exact ih q h1 h2 h3

/-- A downward-moving player whose scan hits at least one floor cell is
snapped onto the floor top by the y-axis correction fold. -/
theorem yfold_hit (l : List (ℤ × ℤ)) :
    ∀ q : Player, q.vel.y ≤ 0 →
    (∃ c ∈ l, hasBlock floorGrid (c.1, c.2, 0) = true) →
    l.foldl (fun p c => if hasBlock floorGrid (c.1, c.2, 0) then collideCell Axis.ay c p else p)
        q
      = { q with pos := { q.pos with y := 0.9 }, vel := { q.vel with y := 0 },
                 onGround := true } := by
  induction l with
  | nil =>
      rintro q _ ⟨c, hc, -⟩
      exact absurd hc (List.not_mem_nil c)
  | cons c t ih =>
      intro q hvy hex
      rw [List.foldl_cons]
      by_cases hb : hasBlock floorGrid (c.1, c.2, 0) = true
      · have hc2 : c.2 = 0 := (floorGrid_has_iff.mp hb).1
        have hstep : collideCell Axis.ay c q
            = { q with pos := { q.pos with y := 0.9 }, vel := { q.vel with y := 0 },
                       onGround := true } := by
          simp only [collideCell, hc2]
          rw [if_neg (not_lt.mpr hvy)]
          have h9 : ((0 : ℤ) : ℚ) + 0.5 + 0.4 = (0.9 : ℚ) := by norm_num
          rw [h9]
        rw [if_pos hb, hstep]
        exact yfold_fix t _ rfl rfl rfl
      · rw [if_neg hb]
        obtain ⟨c', hc', hb'⟩ := hex
        rcases List.mem_cons.mp hc' with h | h
        · exact absurd (h ▸ hb') hb
        · exact ih q hvy ⟨c', h, hb'⟩

/-- A free-fall step over the floor world: with zero lateral intent and
zero x velocity, while the old and new heights stay at or above 1.4, the
physics step is pure vertical integration. -/
theorem physPlayer_fall (dt : ℚ) (q : Player)
    (hvx : q.vel.x = 0)
    (hyold : (1.4 : ℚ) ≤ q.pos.y)
    (hynew : (1.4 : ℚ) ≤ q.pos.y + (q.vel.y - GRAVITY * dt) * dt) :
    physPlayer floorGrid 0 false dt q
      = { q with pos := { q.pos with y := q.pos.y + (q.vel.y - GRAVITY * dt) * dt },
                 vel := { q.vel with x := 0, y := q.vel.y - GRAVITY * dt } } := by
  obtain ⟨⟨px, py, pz⟩, ⟨vx, vy, vz⟩, og, cj⟩ := q
  simp only at hvx hyold hynew
  subst hvx
  have hVX : max (min ((0 : ℚ) - 0 * DRAG * dt) MOVE_SPEED) (-MOVE_SPEED) = 0 := by
    rw [zero_mul, zero_mul, sub_zero]
    rw [min_eq_left (by norm_num [MOVE_SPEED]), max_eq_left (by norm_num [MOVE_SPEED])]
  have hspd : (if (false : Bool) = true then SPRINT_SPEED else MOVE_SPEED) = MOVE_SPEED := rfl
  simp only [physPlayer, hspd, if_neg (by norm_num : ¬ ((0 : ℤ) ≠ 0)), Int.cast_zero]
  rw [hVX]
  have hx1 : checkCollision floorGrid Axis.ax
      (⟨⟨px + 0 * dt, py, pz⟩, ⟨0, vy - GRAVITY * dt, vz⟩, og, cj⟩ : Player)
      = (⟨⟨px + 0 * dt, py, pz⟩, ⟨0, vy - GRAVITY * dt, vz⟩, og, cj⟩ : Player) :=
    checkCollision_above Axis.ax _ hyold
  rw [hx1]
  have hy1 : checkCollision floorGrid Axis.ay
      (⟨⟨px + 0 * dt, py + (vy - GRAVITY * dt) * dt, pz⟩,
        ⟨0, vy - GRAVITY * dt, vz⟩, og, cj⟩ : Player)
      = (⟨⟨px + 0 * dt, py + (vy - GRAVITY * dt) * dt, pz⟩,
          ⟨0, vy - GRAVITY * dt, vz⟩, og, cj⟩ : Player) :=
    checkCollision_above Axis.ay _ hynew
  rw [hy1]
  simp

/-- A landing step over the floor world: if the tentative new height
falls inside the floor band [-0.4, 1.4) while moving down, the step ends
snapped on the floor top with vertical velocity zero and onGround set;
the double-jump flag is untouched. -/
theorem physPlayer_hit (dt : ℚ) (q : Player)
    (hvy : q.vel.y - GRAVITY * dt ≤ 0)
    (hlow : (-0.4 : ℚ) ≤ q.pos.y + (q.vel.y - GRAVITY * dt) * dt)
    (hhigh : q.pos.y + (q.vel.y - GRAVITY * dt) * dt < 1.4) :
    (physPlayer floorGrid 0 false dt q).pos.y = 0.9 ∧
    (physPlayer floorGrid 0 false dt q).vel.y = 0 ∧
    (physPlayer floorGrid 0 false dt q).onGround = true ∧
    (physPlayer floorGrid 0 false dt q).canDoubleJump = q.canDoubleJump := by
  obtain ⟨⟨px, py, pz⟩, ⟨vx, vy, vz⟩, og, cj⟩ := q
  simp only at hvy hlow hhigh
  have hspd : (if (false : Bool) = true then SPRINT_SPEED else MOVE_SPEED) = MOVE_SPEED := rfl
  simp only [physPlayer, hspd, if_neg (by norm_num : ¬ ((0 : ℤ) ≠ 0)), Int.cast_zero]
  set VX := max (min (vx - vx * DRAG * dt) MOVE_SPEED) (-MOVE_SPEED) with hVX
  set q1 : Player := ⟨⟨px + VX * dt, py, pz⟩, ⟨VX, vy - GRAVITY * dt, vz⟩, og, cj⟩ with hq1
  set q2 := checkCollision floorGrid Axis.ax q1 with hq2
  obtain ⟨e1, e2, e3, e4⟩ := checkCollision_ax_ypart floorGrid q1
  rw [← hq2] at e1 e2 e3 e4
  set q3 : Player := { q2 with pos := { q2.pos with y := q2.pos.y + q2.vel.y * dt } } with hq3
  have hy3 : q3.pos.y = py + (vy - GRAVITY * dt) * dt := by
    rw [hq3]
    simp only
    rw [e1, e2]
  have hv3 : q3.vel.y = vy - GRAVITY * dt := by
    rw [hq3]
    simp only
    exact e2
  have hcell : ((⌊q3.pos.x - 0.35⌋, 0) : ℤ × ℤ) ∈ cellList q3 := by
    rw [cellList_mem]
    refine ⟨⟨le_refl _, Int.floor_le_floor (by linarith)⟩, ?_, ?_⟩
    · rw [Int.floor_le_iff]
      rw [hy3]
      push_cast
      linarith
    · rw [Int.le_floor]
      rw [hy3]
      push_cast
      linarith
  have hhit : checkCollision floorGrid Axis.ay q3
      = { q3 with pos := { q3.pos with y := 0.9 }, vel := { q3.vel with y := 0 },
                  onGround := true } := by
    apply yfold_hit (cellList q3) q3 (by rw [hv3]; exact hvy)
    exact ⟨(⌊q3.pos.x - 0.35⌋, 0), hcell, floorGrid_has_iff.mpr ⟨rfl, rfl⟩⟩
  rw [hhit]
  refine ⟨rfl, rfl, rfl, ?_⟩
  show q3.canDoubleJump = cj
  rw [hq3]
  exact e4

-- Iterating the physics step from the C2 start state.

theorem c2_iter_facts (dt : ℚ) : ∀ n : ℕ,
    ((updatePhysics dt)^[n] c2Start).blocks = floorGrid ∧
    ((updatePhysics dt)^[n] c2Start).input = ⟨0, 0, false⟩ := by
  intro n
  induction n with
  | zero => exact ⟨rfl, rfl⟩
  | succ n ih =>
      rw [Function.iterate_succ_apply']
      exact ⟨(updatePhysics_blocks dt _).trans ih.1, (updatePhysics_input dt _).trans ih.2⟩

theorem yA_rec (dt : ℚ) (n : ℕ) :
    yA dt n + (vA dt n - GRAVITY * dt) * dt = yA dt (n + 1) := by
  simp only [yA, vA, GRAVITY]
  push_cast
  ring

theorem vA_rec (dt : ℚ) (n : ℕ) : vA dt n - GRAVITY * dt = vA dt (n + 1) := by
  simp only [vA, GRAVITY]
  push_cast
  ring

/-- Phase A: while all heights so far stay at or above 1.4, the iterates
follow the closed-form free fall. -/
theorem c2_phaseA (dt : ℚ) : ∀ n : ℕ, (∀ m : ℕ, m ≤ n → (1.4 : ℚ) ≤ yA dt m) →
    ((updatePhysics dt)^[n] c2Start).player
      = ⟨⟨0, yA dt n, 0⟩, ⟨0, vA dt n, 0⟩, false, false⟩ := by
  intro n
  induction n with
  | zero =>
      intro _
      simp only [Function.iterate_zero_apply]
      show (⟨⟨0, 5, 0⟩, ⟨0, 0, 0⟩, false, false⟩ : Player) = _
      simp [yA, vA]
  | succ n ih =>
      intro hall
      rw [Function.iterate_succ_apply', updatePhysics_player,
        (c2_iter_facts dt n).1, (c2_iter_facts dt n).2,
        ih (fun m hm => hall m (Nat.le_succ_of_le hm))]
      have hynew : (1.4 : ℚ) ≤ yA dt n + (vA dt n - GRAVITY * dt) * dt := by
        rw [yA_rec]
        exact hall (n + 1) (le_refl _)
      have hstep := physPlayer_fall dt ⟨⟨0, yA dt n, 0⟩, ⟨0, vA dt n, 0⟩, false, false⟩
        rfl (hall n (Nat.le_succ n)) hynew
      rw [show physPlayer floorGrid ((⟨0, 0, false⟩ : InputState)).r
            ((⟨0, 0, false⟩ : InputState)).sprint dt
            (⟨⟨0, yA dt n, 0⟩, ⟨0, vA dt n, 0⟩, false, false⟩ : Player)
          = physPlayer floorGrid 0 false dt
            (⟨⟨0, yA dt n, 0⟩, ⟨0, vA dt n, 0⟩, false, false⟩ : Player) from rfl, hstep]
      dsimp only
      rw [yA_rec, vA_rec]

theorem c2_cross_exists (dt : ℚ) (h1 : 0 < dt) : ∃ n : ℕ, yA dt n < 1.4 := by
  obtain ⟨n, hn⟩ := exists_nat_gt ((3.6 : ℚ) / (20 * dt ^ 2))
  refine ⟨n, ?_⟩
  have hd : (0 : ℚ) < 20 * dt ^ 2 := by positivity
  have h2 : (3.6 : ℚ) < 20 * dt ^ 2 * n := by
    rw [div_lt_iff₀ hd] at hn
    linarith
  have h3 : (20 * dt ^ 2 * n : ℚ) ≤ 20 * dt ^ 2 * n * (n + 1) := by
    nlinarith [Nat.cast_nonneg (α := ℚ) n, sq_nonneg dt]
  simp only [yA]
  linarith

/-- The main convergence fact behind C2: for any fixed dt in (0, 1/10],
the iterated physics step from the start state eventually reaches and
keeps height 0.9 with zero vertical velocity and onGround set. The step
over the floor band cannot tunnel through it: when the fall first drops
below 1.4 the per-step displacement is still at most 1.8. -/
theorem c2_main (dt : ℚ) (h1 : 0 < dt) (h2 : dt ≤ 1 / 10) :
    ∃ N : ℕ, ∀ m : ℕ, N ≤ m →
      ((updatePhysics dt)^[m] c2Start).player.pos.y = 0.9 ∧
      ((updatePhysics dt)^[m] c2Start).player.vel.y = 0 ∧
      ((updatePhysics dt)^[m] c2Start).player.onGround = true := by
  have hex : ∃ n, yA dt n < 1.4 := c2_cross_exists dt h1
  have hKspec : yA dt (Nat.find hex) < 1.4 := Nat.find_spec hex
  have hKmin : ∀ m, m < Nat.find hex → (1.4 : ℚ) ≤ yA dt m :=
    fun m hm => not_lt.mp (Nat.find_min hex hm)
  have hdt2 : dt ^ 2 ≤ 1 / 100 := by nlinarith
  have hK0 : Nat.find hex ≠ 0 := by
    intro h0
    rw [h0] at hKspec
    have h5 : yA dt 0 = 5 := by simp [yA]
    rw [h5] at hKspec
    norm_num at hKspec
  obtain ⟨K', hKeq⟩ : ∃ K', Nat.find hex = K' + 1 := ⟨Nat.find hex - 1, by omega⟩
  rw [hKeq] at hKspec
  have hA := c2_phaseA dt K' (fun m hm => hKmin m (by omega))
  have hyK' : (1.4 : ℚ) ≤ yA dt K' := hKmin K' (by omega)
  have hvy : vA dt K' - GRAVITY * dt ≤ 0 := by
    simp only [vA, GRAVITY]
    have hnn : (0 : ℚ) ≤ 40 * dt * K' := by positivity
    nlinarith
  have hup : 20 * dt ^ 2 * K' * ((K' : ℚ) + 1) ≤ 3.6 := by
    simp only [yA] at hyK'
    linarith
  have key : 40 * dt ^ 2 * ((K' : ℚ) + 1) ≤ 1.8 := by
    rcases le_or_lt 4 K' with hc | hc
    · have hc' : (4 : ℚ) ≤ (K' : ℚ) := by exact_mod_cast hc
      have hpos : (0 : ℚ) ≤ 20 * dt ^ 2 * ((K' : ℚ) + 1) := by positivity
      nlinarith
    · have hc' : (K' : ℚ) ≤ 3 := by
        have : K' ≤ 3 := by omega
        exact_mod_cast this
      nlinarith [sq_nonneg dt, Nat.cast_nonneg (α := ℚ) K']
  have hstepy : yA dt (K' + 1) = yA dt K' - 40 * dt ^ 2 * ((K' : ℚ) + 1) := by
    simp only [yA]
    push_cast
    ring
  have hbound : (-0.4 : ℚ) ≤ yA dt (K' + 1) := by
    rw [hstepy]
    linarith
  have hsettle : ∀ j : ℕ,
      ((updatePhysics dt)^[K' + 1 + j] c2Start).player.pos.y = 0.9 ∧
      ((updatePhysics dt)^[K' + 1 + j] c2Start).player.vel.y = 0 ∧
      ((updatePhysics dt)^[K' + 1 + j] c2Start).player.onGround = true := by
    intro j
    induction j with
    | zero =>
        rw [Nat.add_zero, Function.iterate_succ_apply', updatePhysics_player,
          (c2_iter_facts dt K').1, (c2_iter_facts dt K').2, hA]
        have hB := physPlayer_hit dt ⟨⟨0, yA dt K', 0⟩, ⟨0, vA dt K', 0⟩, false, false⟩
          hvy (by show (-0.4 : ℚ) ≤ yA dt K' + (vA dt K' - GRAVITY * dt) * dt
                  rw [yA_rec]
                  exact hbound)
          (by show yA dt K' + (vA dt K' - GRAVITY * dt) * dt < 1.4
              rw [yA_rec]
              exact hKspec)
        exact ⟨hB.1, hB.2.1, hB.2.2.1⟩
    | succ j ih =>
        obtain ⟨p1, p2, p3⟩ := ih
        have hstep : K' + 1 + (j + 1) = (K' + 1 + j) + 1 := by omega
        rw [hstep, Function.iterate_succ_apply', updatePhysics_player,
          (c2_iter_facts dt (K' + 1 + j)).1, (c2_iter_facts dt (K' + 1 + j)).2]
        have hq := physPlayer_hit dt ((updatePhysics dt)^[K' + 1 + j] c2Start).player
          (by rw [p2]; simp only [GRAVITY]; nlinarith)
          (by rw [p1, p2]; simp only [GRAVITY]; nlinarith)
          (by rw [p1, p2]; simp only [GRAVITY]; nlinarith)
        exact ⟨hq.1, hq.2.1, hq.2.2.1⟩
  refine ⟨K' + 1, ?_⟩
  intro m hm
  obtain ⟨j, rfl⟩ : ∃ j, m = K' + 1 + j := ⟨m - (K' + 1), by omega⟩
  exact hsettle j

/-- C2 counterexample: with the concrete dt = 1/10 the trajectory keeps
height 0.9 from some point on, so there is no point after which the
height equals 0.5 — the claimed settle height is wrong. -/
theorem c2_y_never_half :
    ¬ (∃ N : ℕ, ∀ m : ℕ, N ≤ m →
        ((updatePhysics (1 / 10))^[m] c2Start).player.pos.y = 0.5 ∧
        ((updatePhysics (1 / 10))^[m] c2Start).player.onGround = true) := by
  rintro ⟨N, hN⟩
  obtain ⟨N0, h0⟩ := c2_main (1 / 10) (by norm_num) (le_refl _)
  have h1 := (hN (max N N0) (le_max_left N N0)).1
  have h2 := (h0 (max N N0) (le_max_right N N0)).1
  rw [h1] at h2
  norm_num at h2

/-- C2 amended: over the flat single-layer floor at y = 0, starting at
y = 5 with zero horizontal velocity and zero lateral intent, for any
fixed dt in (0, 0.1] the iterated physics step eventually reaches and
keeps position.y = 0.9 (block top face 0.5 plus half collision height
0.4) with onGround true; the claimed value 0.5 is what the code never
produces. -/
theorem c2_settles_at_09 (dt : ℚ) (h1 : 0 < dt) (h2 : dt ≤ 1 / 10) :
    ∃ N : ℕ, ∀ m : ℕ, N ≤ m →
      ((updatePhysics dt)^[m] c2Start).player.pos.y = 0.9 ∧
      ((updatePhysics dt)^[m] c2Start).player.onGround = true := by
  obtain ⟨N, hN⟩ := c2_main dt h1 h2
  exact ⟨N, fun m hm => ⟨(hN m hm).1, (hN m hm).2.2⟩⟩

/-- Witness for C2 at the concrete step size dt = 1/10. -/
theorem c2_settles_at_09_witness :
    (0 : ℚ) < 1 / 10 ∧ (1 / 10 : ℚ) ≤ 1 / 10 ∧
    ∃ N : ℕ, ∀ m : ℕ, N ≤ m →
      ((updatePhysics (1 / 10))^[m] c2Start).player.pos.y = 0.9 ∧
      ((updatePhysics (1 / 10))^[m] c2Start).player.onGround = true :=
  ⟨by norm_num, le_refl _, c2_settles_at_09 (1 / 10) (by norm_num) (le_refl _)⟩

end Voxel
